import Mathlib

/-!
Verification of the nagui graph-interchange protocol and versioned session
engine, as implemented in `app/subapps/file.py` (parser family, serializer),
`src/apps/nagui_n.py` / `src/apps/nagui_d.py` / `app/subapps/nagui_g.py`
(session store, command arbitrator, model edit operations).

Modelling conventions:
* A result file is a `List String` of its lines, each line given without its
  trailing newline; Python's `f.readline()` on an exhausted file returns the
  empty string, which the parsers model by pattern-matching on `[]`.
* Python runtime errors (`IndexError` from `split()[0]` on a blank line,
  `ValueError` from `int()` on a non-integer token or from tuple unpacking)
  abort the parse with no result; parsers return `Option`/a `malformed`
  outcome for those paths.
* Python assignment of graph objects is by reference.  The session state is
  therefore modelled with an explicit heap (`List` of models indexed by
  address): `current_network = original_network` copies an address, while
  in-place operations (`add_node`, `clear`, ...) mutate the heap cell.
* Machine integers: Python's `int` is unbounded, so `Int`/`Nat` are exact.
-/

/-- Helper for `pySplit`: walks the characters of a line accumulating the
current word in reverse, emitting a word at each whitespace run boundary.
Models the behaviour of Python's `str.split()` with no separator argument. -/
def pyWordsAux : List Char → List Char → List (List Char)
  | [], acc => if acc.isEmpty then [] else [acc.reverse]
  | c :: cs, acc =>
    if c.isWhitespace then
      if acc.isEmpty then pyWordsAux cs [] else acc.reverse :: pyWordsAux cs []
    else pyWordsAux cs (c :: acc)

/-- Model of Python `s.split()`: split on runs of whitespace, dropping empty
tokens. -/
def pySplit (s : String) : List String :=
  (pyWordsAux s.data []).map fun l => String.mk l

/-- Model of Python `s.split('/')` (used by the add-vertex action of
`update_network`): split at every `'/'`, keeping empty pieces. -/
def slashSplitAux : List Char → List Char → List (List Char)
  | [], acc => [acc.reverse]
  | c :: cs, acc =>
    if c = '/' then acc.reverse :: slashSplitAux cs [] else slashSplitAux cs (c :: acc)

/-- Model of Python `s.split('/')` at the `String` level. -/
def pySplitSlash (s : String) : List String :=
  (slashSplitAux s.data []).map fun l => String.mk l

/-- Decimal digit value of a character, `none` for a non-digit. -/
def charToDig? (c : Char) : Option Nat :=
  if 48 ≤ c.toNat ∧ c.toNat ≤ 57 then some (c.toNat - 48) else none

/-- Accumulating decimal reader over a digit string. -/
def charsToNatAux : List Char → Nat → Option Nat
  | [], acc => some acc
  | c :: cs, acc =>
    match charToDig? c with
    | some d => charsToNatAux cs (acc * 10 + d)
    | none => none

/-- Reads a non-empty all-digit string as a natural number. -/
def charsToNat? (cs : List Char) : Option Nat :=
  if cs.isEmpty then none else charsToNatAux cs 0

/-- Model of Python `int(token)` on the characters of a token: an optional
leading minus sign followed by at least one decimal digit; anything else
raises `ValueError`, modelled as `none`. -/
def pyIntChars? (cs : List Char) : Option Int :=
  if cs.head? = some '-' then (charsToNat? cs.tail).map fun n => -(n : Int)
  else (charsToNat? cs).map fun n => (n : Int)

/-- Model of Python `int(token)` on a `String` token. -/
def pyInt? (s : String) : Option Int := pyIntChars? s.data

/-- Decimal digit character for a digit value. -/
def digChar (d : Nat) : Char := Char.ofNat (48 + d)

/-- Model of Python `str(n)` for a natural number: decimal digits, most
significant first. -/
def natChars (n : Nat) : List Char :=
  if n = 0 then ['0'] else ((Nat.digits 10 n).reverse).map digChar

/-- Model of Python `str(n)` for an integer. -/
def intChars : Int → List Char
  | Int.ofNat n => natChars n
  | Int.negSucc n => '-' :: natChars (n + 1)

/-- Model of Python `str(n)` as a `String` token. -/
def intTok (n : Int) : String := String.mk (intChars n)

/-- Joins tokens with single spaces, as one line of an interchange/result
file. -/
def joinTok : List String → String
  | [] => ""
  | [t] => t
  | t :: ts => t ++ " " ++ joinTok ts

/-- A safe token: non-empty and free of whitespace, so that `split()`
recovers it verbatim from a space-joined line. -/
def safeTok (t : String) : Prop :=
  t.data ≠ [] ∧ ∀ c ∈ t.data, c.isWhitespace = false

instance (t : String) : Decidable (safeTok t) := by
  unfold safeTok; infer_instance

/-- Result of one parser call (`load_graph` / `load_digraph` /
`load_network`).  `ok` carries the rebuilt model and the trailing info line
(the Python functions return `graph, isGraph=True, info`); `exc` is the
executor-reported failure path (`isGraph=False`, the message line returned in
place of the graph); `malformed` models an uncaught Python exception
(`IndexError`/`ValueError`) aborting the parse. -/
inductive ParseOutcome (α : Type) where
  | ok (g : α) (info : String)
  | exc (msg : String)
  | malformed
deriving DecidableEq, Repr

/-- Model of the `networkx` graph object built by `load_graph`
(`nx.Graph()` or `nx.DiGraph()`, nodes without attributes, edges carrying a
`weight` attribute).  Node and edge lists keep insertion order, as
`networkx` does. -/
structure Graph where
  directed : Bool
  nodes : List String
  edges : List (String × String × Int)
deriving DecidableEq, Repr

/-- Model of `graph.has_node(v)`. -/
def Graph.hasNode (g : Graph) (v : String) : Bool := g.nodes.contains v

/-- Model of `graph.add_node(v)`: a no-op when the node exists. -/
def Graph.addNode (g : Graph) (v : String) : Graph :=
  if g.hasNode v then g else { g with nodes := g.nodes ++ [v] }

/-- Whether an existing stored edge matches the pair `(u, v)`: exact match
for a directed graph, either orientation for an undirected one. -/
def edgeMatches (directed : Bool) (u v : String) (e : String × String × Int) : Bool :=
  (e.1 = u && e.2.1 = v) || (!directed && e.1 = v && e.2.1 = u)

/-- Model of `graph.has_edge(u, v)`. -/
def Graph.hasEdge (g : Graph) (u v : String) : Bool :=
  g.edges.any (edgeMatches g.directed u v)

/-- Model of `graph.add_edge(u, v, weight=w)`: missing endpoints are added
as nodes; an existing edge has its weight updated in place, otherwise the
edge is appended. -/
def Graph.addEdge (g : Graph) (u v : String) (w : Int) : Graph :=
  let g1 := (g.addNode u).addNode v
  if g1.hasEdge u v then
    { g1 with edges := g1.edges.map fun e =>
        if edgeMatches g1.directed u v e then (e.1, e.2.1, w) else e }
  else { g1 with edges := g1.edges ++ [(u, v, w)] }

/-- Model of `graph.remove_edge(u, v)`. -/
def Graph.removeEdge (g : Graph) (u v : String) : Graph :=
  { g with edges := g.edges.filter fun e => !edgeMatches g.directed u v e }

/-- Model of `graph.remove_node(v)`: removes the node and all incident
edges. -/
def Graph.removeNode (g : Graph) (v : String) : Graph :=
  { g with nodes := g.nodes.filter (· ≠ v),
           edges := g.edges.filter fun e => e.1 ≠ v && e.2.1 ≠ v }

/-- Model of `graph.clear()`: empties nodes and edges in place. -/
def Graph.clearModel (g : Graph) : Graph := { g with nodes := [], edges := [] }

/-- Empty graph of the given directedness (`nx.Graph()` / `nx.DiGraph()`). -/
def newGraph (d : Bool) : Graph := ⟨d, [], []⟩

/-- Vertex-record loop of `load_graph`: reads one line per iteration, adds
its first token as a node, and stops when that token is `edges`.  A blank
line or end of file raises `IndexError` (`none`). -/
def parseVertsG : List String → Graph → Option (Graph × List String)
  | [], _ => none
  | l :: ls, g =>
    match pySplit l with
    | [] => none
    | tok :: _ =>
      if tok = "edges" then some (g, ls) else parseVertsG ls (g.addNode tok)

/-- Edge-record loop shared by `load_graph` and `load_digraph`: reads
`source terminus weight` records until a line whose first token is `extra`
(then the following raw line is the trailing info) or `end`.  A line that is
not exactly three tokens, or a non-integer weight, raises (`none`). -/
def parseEdgesW : List String → Graph → Option (Graph × String)
  | [], _ => none
  | l :: ls, g =>
    match pySplit l with
    | [] => none
    | tok :: _ =>
      if tok = "extra" then some (g, ls.headD "")
      else if tok = "end" then some (g, "")
      else
        match pySplit l with
        | [s, t, w] =>
          match pyInt? w with
          | some wi => parseEdgesW ls (g.addEdge s t wi)
          | none => none
        | _ => none

/-- Model of `load_graph` over the lines of the result file.  The first
line's first token selects `nx.Graph` (`graph`), `nx.DiGraph` (`digraph`),
or the exception path (anything else: the next raw line is returned as the
message with `isGraph = False`).  One line (the vertex-section header) is
skipped unexamined before the vertex loop. -/
def load_graph (lines : List String) : ParseOutcome Graph :=
  match lines with
  | [] => ParseOutcome.malformed
  | l0 :: ls =>
    match pySplit l0 with
    | [] => ParseOutcome.malformed
    | header :: _ =>
      if header = "graph" ∨ header = "digraph" then
        match parseVertsG ls.tail (newGraph (header == "digraph")) with
        | none => ParseOutcome.malformed
        | some (g1, ls1) =>
          match parseEdgesW ls1 g1 with
          | none => ParseOutcome.malformed
          | some (g2, info) => ParseOutcome.ok g2 info
      else ParseOutcome.exc (ls.headD "")

/-- Model of the `nx.DiGraph` built by `load_digraph`: nodes carry an
optional `name` attribute (absent when `add_edge` auto-creates an
endpoint), edges carry a `weight`. -/
structure DGraph where
  nodes : List (String × Option String)
  edges : List (String × String × Int)
deriving DecidableEq, Repr

/-- Model of `digraph.has_node(v)`. -/
def DGraph.hasNode (g : DGraph) (v : String) : Bool := g.nodes.any (·.1 = v)

/-- Model of `digraph.add_node(v, name=nm)`: updates the attribute when the
node exists, else appends. -/
def DGraph.addNode (g : DGraph) (v : String) (nm : String) : DGraph :=
  if g.hasNode v then
    { g with nodes := g.nodes.map fun p => if p.1 = v then (v, some nm) else p }
  else { g with nodes := g.nodes ++ [(v, some nm)] }

/-- Adds a node with no attributes if absent (what `add_edge` does to a
missing endpoint). -/
def DGraph.ensureNode (g : DGraph) (v : String) : DGraph :=
  if g.hasNode v then g else { g with nodes := g.nodes ++ [(v, none)] }

/-- Model of `digraph.add_edge(u, v, weight=w)` (directed). -/
def DGraph.addEdge (g : DGraph) (u v : String) (w : Int) : DGraph :=
  let g1 := (g.ensureNode u).ensureNode v
  if g1.edges.any (fun e => e.1 = u && e.2.1 = v) then
    { g1 with edges := g1.edges.map fun e =>
        if e.1 = u && e.2.1 = v then (u, v, w) else e }
  else { g1 with edges := g1.edges ++ [(u, v, w)] }

/-- Vertex-record loop of `load_digraph`: each record is `id name`; reading
`item[1]` from a one-token record raises `IndexError` (`none`). -/
def parseVertsD : List String → DGraph → Option (DGraph × List String)
  | [], _ => none
  | l :: ls, g =>
    match pySplit l with
    | [] => none
    | tok :: rest =>
      if tok = "edges" then some (g, ls)
      else
        match rest with
        | nm :: _ => parseVertsD ls (g.addNode tok nm)
        | [] => none

/-- Edge-record loop of `load_digraph` (same grammar as `parseEdgesW`, on a
directed graph). -/
def parseEdgesD : List String → DGraph → Option (DGraph × String)
  | [], _ => none
  | l :: ls, g =>
    match pySplit l with
    | [] => none
    | tok :: _ =>
      if tok = "extra" then some (g, ls.headD "")
      else if tok = "end" then some (g, "")
      else
        match pySplit l with
        | [s, t, w] =>
          match pyInt? w with
          | some wi => parseEdgesD ls (g.addEdge s t wi)
          | none => none
        | _ => none

/-- Model of `load_digraph`: any first token other than `digraph` (the
`exception` sentinel in particular) takes the failure path returning the
next raw line. -/
def load_digraph (lines : List String) : ParseOutcome DGraph :=
  match lines with
  | [] => ParseOutcome.malformed
  | l0 :: ls =>
    match pySplit l0 with
    | [] => ParseOutcome.malformed
    | header :: _ =>
      if header = "digraph" then
        match parseVertsD ls.tail ⟨[], []⟩ with
        | none => ParseOutcome.malformed
        | some (g1, ls1) =>
          match parseEdgesD ls1 g1 with
          | none => ParseOutcome.malformed
          | some (g2, info) => ParseOutcome.ok g2 info
      else ParseOutcome.exc (ls.headD "")

/-- Attribute dictionary of a network vertex as the code uses it: the keys
`type`, `flow`, `min_flow`, `max_flow`, `info`, each possibly absent. -/
structure NVertexAttrs where
  type : Option String := none
  flow : Option Int := none
  min_flow : Option Int := none
  max_flow : Option Int := none
  info : Option String := none
deriving DecidableEq, Repr

/-- Attribute dictionary of a network edge: `add_edge` in both the GUI and
the parser always provides all five keys. -/
structure NEdgeAttrs where
  weight : Int
  restriction : Int
  flow : Int
  cost : Int
  info : String
deriving DecidableEq, Repr

/-- Model of the `nx.DiGraph` used for the network variant. -/
structure Network where
  nodes : List (String × NVertexAttrs)
  edges : List (String × String × NEdgeAttrs)
deriving DecidableEq, Repr

/-- Empty network (`nx.DiGraph()`). -/
def emptyNetwork : Network := ⟨[], []⟩

/-- Model of `network.has_node(v)`. -/
def Network.hasNode (net : Network) (v : String) : Bool := net.nodes.any (·.1 = v)

/-- Keyword-argument merge of `add_node` on an existing node: keys provided
in the call (the `some` fields) overwrite, absent keys keep their old
value. -/
def NVertexAttrs.mergeInto (old new : NVertexAttrs) : NVertexAttrs :=
  ⟨new.type.or old.type, new.flow.or old.flow, new.min_flow.or old.min_flow,
   new.max_flow.or old.max_flow, new.info.or old.info⟩

/-- Model of `network.add_node(v, **attrs)`: appends a fresh node or merges
the provided attributes into an existing one. -/
def Network.addNode (net : Network) (v : String) (a : NVertexAttrs) : Network :=
  if net.hasNode v then
    { net with nodes := net.nodes.map fun p =>
        if p.1 = v then (v, NVertexAttrs.mergeInto p.2 a) else p }
  else { net with nodes := net.nodes ++ [(v, a)] }

/-- Adds a node with an empty attribute dictionary if absent (what
`add_edge` does to a missing endpoint). -/
def Network.ensureNode (net : Network) (v : String) : Network :=
  if net.hasNode v then net
  else { net with nodes := net.nodes ++ [(v, ⟨none, none, none, none, none⟩)] }

/-- Model of `network.has_edge(u, v)` (directed). -/
def Network.hasEdge (net : Network) (u v : String) : Bool :=
  net.edges.any fun e => e.1 = u && e.2.1 = v

/-- Model of `network.add_edge(u, v, **attrs)`: auto-creates missing
endpoints, overwrites the attributes of an existing edge, otherwise
appends. -/
def Network.addEdge (net : Network) (u v : String) (a : NEdgeAttrs) : Network :=
  let n1 := (net.ensureNode u).ensureNode v
  if n1.hasEdge u v then
    { n1 with edges := n1.edges.map fun e =>
        if e.1 = u && e.2.1 = v then (u, v, a) else e }
  else { n1 with edges := n1.edges ++ [(u, v, a)] }

/-- Model of `network.remove_edge(u, v)`. -/
def Network.removeEdge (net : Network) (u v : String) : Network :=
  { net with edges := net.edges.filter fun e => !(e.1 = u && e.2.1 = v) }

/-- Model of `network.remove_node(v)`: removes the node and all incident
edges. -/
def Network.removeNode (net : Network) (v : String) : Network :=
  { nodes := net.nodes.filter (·.1 ≠ v),
    edges := net.edges.filter fun e => !(e.1 = v) && !(e.2.1 = v) }

/-- Model of `network.clear()`. -/
def Network.clearModel (_ : Network) : Network := emptyNetwork

/-- The edge `info` attribute string `'r:{}, f:{}, q:{}, c:{}'` formatted
from the four already-rendered fields (the parser formats the raw tokens,
the GUI formats `str` of the integers). -/
def netEdgeInfo (r f q c : String) : String :=
  "r:" ++ r ++ ", f:" ++ f ++ ", q:" ++ q ++ ", c:" ++ c

/-- Vertex-record loop of `load_network`: 4 tokens `name type _ _` is a
plain vertex, 6 tokens `name type _ min max _` a vertex with flow bounds,
5 tokens `name type _ _ production` a vertex with fixed flow.  A record of
any other token count is silently skipped (no matching branch in the
Python `if`/`elif` chain); a non-integer numeric field raises (`none`). -/
def parseVertsN : List String → Network → Option (Network × List String)
  | [], _ => none
  | l :: ls, net =>
    match pySplit l with
    | [] => none
    | tok :: _ =>
      if tok = "edges" then some (net, ls)
      else
        match pySplit l with
        | [name, ty, _, _] =>
          parseVertsN ls (net.addNode name ⟨some ty, none, none, none, none⟩)
        | [name, ty, _, mn, mx, _] =>
          match pyInt? mn, pyInt? mx with
          | some mni, some mxi =>
            parseVertsN ls (net.addNode name ⟨some ty, none, some mni, some mxi, none⟩)
          | _, _ => none
        | [name, ty, _, _, production] =>
          match pyInt? production with
          | some p => parseVertsN ls (net.addNode name ⟨some ty, some p, none, none, none⟩)
          | none => none
        | _ => parseVertsN ls net

/-- Edge-record loop of `load_network`: records are
`source terminus capacity restriction flow cost`; the stored `info`
attribute is formatted from the raw tokens. -/
def parseEdgesN : List String → Network → Option (Network × String)
  | [], _ => none
  | l :: ls, net =>
    match pySplit l with
    | [] => none
    | tok :: _ =>
      if tok = "extra" then some (net, ls.headD "")
      else if tok = "end" then some (net, "")
      else
        match pySplit l with
        | [s, t, cap, restr, fl, cost] =>
          match pyInt? cap, pyInt? restr, pyInt? fl, pyInt? cost with
          | some capi, some restri, some fli, some costi =>
            parseEdgesN ls
              (net.addEdge s t ⟨capi, restri, fli, costi, netEdgeInfo restr fl cap cost⟩)
          | _, _, _, _ => none
        | _ => none

/-- Model of `load_network`: only the exact first token `exception` takes
the failure path; any other header is accepted. -/
def load_network (lines : List String) : ParseOutcome Network :=
  match lines with
  | [] => ParseOutcome.malformed
  | l0 :: ls =>
    match pySplit l0 with
    | [] => ParseOutcome.malformed
    | header :: _ =>
      if header = "exception" then ParseOutcome.exc (ls.headD "")
      else
        match parseVertsN ls.tail emptyNetwork with
        | none => ParseOutcome.malformed
        | some (n1, ls1) =>
          match parseEdgesN ls1 n1 with
          | none => ParseOutcome.malformed
          | some (n2, info) => ParseOutcome.ok n2 info

/-- Session state of one editor view, with Python's reference semantics made
explicit: `heap` holds the graph objects, `cur` and `orig` are the addresses
stored in the globals `current_*` and `original_*`, `gen` is the global
`file_id` generation counter, and `msg` the global `info` message slot. -/
structure Session (α : Type) where
  heap : List α
  cur : Nat
  orig : Nat
  gen : Nat
  msg : String
deriving DecidableEq, Repr

/-- The model object `current_*` points at. -/
def Session.curModel {α : Type} (s : Session α) : Option α := s.heap[s.cur]?

/-- The model object `original_*` points at. -/
def Session.origModel {α : Type} (s : Session α) : Option α := s.heap[s.orig]?

/-- In-place update of the heap cell at address `i`. -/
def heapModify {α : Type} (h : List α) (i : Nat) (f : α → α) : List α :=
  match h[i]? with
  | some a => h.set i (f a)
  | none => h

/-- An edit action: mutates the object `current_*` points at in place
(`add_node`, `add_edge`, `remove_node`, `remove_edge` are all in-place on
the shared object). -/
def Session.editCur {α : Type} (s : Session α) (f : α → α) : Session α :=
  { s with heap := heapModify s.heap s.cur f }

/-- A fresh session: the module initialisers create two distinct empty
objects (`current_* = nx.DiGraph()`, `original_* = nx.DiGraph()`) and
`file_id = 0`. -/
def Session.fresh {α : Type} (empty : α) : Session α :=
  { heap := [empty, empty], cur := 0, orig := 1, gen := 0, msg := "" }

/-- The run action, given the parse outcome of the result file.  Mirrors the
`btn_run` branch: `info` is reset at callback entry, `original := current`
is a reference assignment taken before the executor call, and then on a
successful parse the freshly built model becomes `current` and the
generation is incremented; on the exception path only the message is set;
on an uncaught parse exception nothing further is assigned. -/
def Session.runStep {α : Type} (s : Session α) (r : ParseOutcome α) : Session α :=
  let s1 := { s with orig := s.cur, msg := "" }
  match r with
  | ParseOutcome.ok m i =>
    { s1 with heap := s1.heap ++ [m], cur := s1.heap.length, gen := s1.gen + 1, msg := i }
  | ParseOutcome.exc m => { s1 with msg := m }
  | ParseOutcome.malformed => s1

/-- The reset action (`btn_reset` branch): `current := original` by
reference, and `file_id` is decremented only while above 1. -/
def Session.rollback {α : Type} (s : Session α) : Session α :=
  { s with cur := s.orig,
           gen := if 1 < s.gen then s.gen - 1 else s.gen,
           msg := "" }

/-- The empty action (`btn_empty` branch): `current.clear()` mutates the
pointed-to object in place; `clear` is the variant's in-place emptying
map. -/
def Session.clearStep {α : Type} (s : Session α) (clear : α → α) : Session α :=
  s.editCur clear

/-- Timestamp value used for the arbitration vector: `None` becomes 0
(`btn if btn is not None else 0`). -/
def btnVal (t : Option Nat) : Nat := t.getD 0

/-- Model of `np.argmax` on the timestamp vector: the index of the first
occurrence of the maximum value (on the empty vector, never passed by the
callback, the index defaults to 0). -/
def argmaxFirst (l : List Nat) : Nat := l.indexOf (l.foldr max 0)

/-- The command arbitrator: branch `k` of the `if`/`elif` chain runs exactly
when `btn_k is not None` and `btn_pressed == k`, so the selected action is
the argmax slot, guarded by its own timestamp being present.  Field-level
validation then happens inside the selected branch. -/
def selectedAction (ts : List (Option Nat)) : Option Nat :=
  match ts.get? (argmaxFirst (ts.map btnVal)) with
  | some (some _) => some (argmaxFirst (ts.map btnVal))
  | _ => none

/-- One arbitrated dispatch over an arbitrary model type: the selected
action's mutation applies, otherwise the model is untouched. -/
def dispatchStep {α : Type} (ts : List (Option Nat)) (acts : Nat → α → α) (m : α) : α :=
  match selectedAction ts with
  | some k => acts k m
  | none => m

/-- In-degree of a vertex (number of stored edges ending at it). -/
def Network.inDegree (net : Network) (v : String) : Nat :=
  (net.edges.filter fun e => e.2.1 = v).length

/-- Out-degree of a vertex. -/
def Network.outDegree (net : Network) (v : String) : Nat :=
  (net.edges.filter fun e => e.1 = v).length

/-- The vertex `info` label of `update_vertices_info`, given the role
prefix (`'+ '` for a source, `'- '` for a sink, `''` for a pass vertex):
`'{v}, {flow}'` when a fixed flow is set, `'{v}, {min}/{max}'` when bounds
are set, plain `'{v}'` otherwise.  (The code reads `max_flow` only when
`min_flow` exists; the two are always set together.) -/
def vertexInfoString (v : String) (a : NVertexAttrs) (pre : String) : String :=
  match a.flow with
  | some f => pre ++ v ++ ", " ++ intTok f
  | none =>
    match a.min_flow, a.max_flow with
    | some mn, some mx => pre ++ v ++ ", " ++ intTok mn ++ "/" ++ intTok mx
    | _, _ => pre ++ v

/-- Model of `update_vertices_info(network, v)` for one vertex: the role is
recomputed from the degrees (`in_degree == 0` → source, else
`out_degree == 0` → sink, else pass) and the `type` and `info` keys are
overwritten. -/
def Network.updateVertexInfo (net : Network) (v : String) : Network :=
  let upd : NVertexAttrs → NVertexAttrs := fun a =>
    if net.inDegree v = 0 then
      { a with type := some "source", info := some (vertexInfoString v a "+ ") }
    else if net.outDegree v = 0 then
      { a with type := some "sink", info := some (vertexInfoString v a "- ") }
    else { a with type := some "pass", info := some (vertexInfoString v a "") }
  { net with nodes := net.nodes.map fun p => if p.1 = v then (v, upd p.2) else p }

/-- Model of `update_vertices_info(network)` with `vertex=None`: every
vertex is refreshed.  Only node attributes change, so iterating over the
initial node list is equivalent to Python's live iteration. -/
def Network.updateAllInfo (net : Network) : Network :=
  (net.nodes.map (·.1)).foldl Network.updateVertexInfo net

/-- The add-vertex branch of `update_network`, applied to the text field
value.  Returns the new network and the `info` message (empty when no
user-visible message is produced; an `int()` failure aborts the branch
before any mutation, also with no message). -/
def Network.applyAddVertex (net : Network) (value : String) : Network × String :=
  if value = "" then (net, "")
  else
    let input := pySplitSlash value
    let name := input.headD ""
    if net.hasNode name then (net, "Vertex " ++ name ++ " is already on the network.")
    else if input.length = 1 then
      (net.addNode name ⟨some "source", none, none, none, some ("+ " ++ name)⟩, "")
    else if input.length = 2 then
      match pyInt? (input.getD 1 "") with
      | some fl =>
        (net.addNode name
          ⟨some "source", some fl, none, none, some ("+ " ++ name ++ ", " ++ intTok fl)⟩, "")
      | none => (net, "")
    else
      match pyInt? (input.getD 1 ""), pyInt? (input.getD 2 "") with
      | some mn, some mx =>
        if 0 ≤ mn ∧ mn ≤ mx then
          (net.addNode name
            ⟨some "source", none, some mn, some mx,
             some ("+ " ++ name ++ ", " ++ intTok mn ++ "/" ++ intTok mx)⟩, "")
        else (net, "Invalid restrictions for vertex " ++ name ++ ".")
      | _, _ => (net, "")

/-- The add-edge branch of `update_network`: the admission guard requires
both endpoints present, `weight >= restriction`, `restriction >= 0` and
`weight >= 0`; otherwise the `elif` chain selects the user-visible message
and nothing is mutated.  The new edge starts with `flow = 0`. -/
def Network.applyAddEdge (net : Network) (source terminus : String)
    (weight restriction cost : Int) : Network × String :=
  if source = "" ∨ terminus = "" then (net, "")
  else if net.hasNode source ∧ net.hasNode terminus ∧ restriction ≤ weight ∧
      0 ≤ restriction ∧ 0 ≤ weight then
    let n1 := net.addEdge source terminus
      ⟨weight, restriction, 0, cost,
       netEdgeInfo (intTok restriction) (intTok 0) (intTok weight) (intTok cost)⟩
    ((n1.updateVertexInfo source).updateVertexInfo terminus, "")
  else if ¬ net.hasNode source ∧ net.hasNode terminus then
    (net, "Vertex " ++ source ++ " is not on the network.")
  else if net.hasNode source ∧ ¬ net.hasNode terminus then
    (net, "Vertex " ++ terminus ++ " is not on the network.")
  else if ¬ net.hasNode source ∧ ¬ net.hasNode terminus then
    (net, "Vertices " ++ source ++ " and " ++ terminus ++ " are not on the network.")
  else if weight < restriction then
    (net, "The capacity of the edge can't be less than the restriction.")
  else if restriction < 0 then
    (net, "The minimum restriction can't be negative.")
  else (net, "The capacity of the edge can't be negative.")

/-- The remove-vertex branch of `update_network`. -/
def Network.applyRmVertex (net : Network) (value : String) : Network × String :=
  if value = "" then (net, "")
  else if net.hasNode value then ((net.removeNode value).updateAllInfo, "")
  else (net, "Vertex " ++ value ++ " is not on the network.")

/-- The remove-edge branch of `update_network`. -/
def Network.applyRmEdge (net : Network) (source terminus : String) : Network × String :=
  if source = "" ∨ terminus = "" then (net, "")
  else if net.hasNode source ∧ net.hasNode terminus ∧ net.hasEdge source terminus then
    (((net.removeEdge source terminus).updateVertexInfo source).updateVertexInfo terminus, "")
  else if ¬ net.hasNode source ∧ net.hasNode terminus then
    (net, "Vertex " ++ source ++ " is not on the network.")
  else if net.hasNode source ∧ ¬ net.hasNode terminus then
    (net, "Vertex " ++ terminus ++ " is not on the network.")
  else if ¬ net.hasNode source ∧ ¬ net.hasNode terminus then
    (net, "Vertices " ++ source ++ " and " ++ terminus ++ " are not on the network.")
  else
    (net, "There isn't an edge between vertices " ++ source ++ " and " ++ terminus ++ ".")

/-- One user edit operation on the network model, with the field values the
branch reads. -/
inductive NetOp where
  | addVertex (value : String)
  | addEdge (source terminus : String) (weight restriction cost : Int)
  | rmVertex (value : String)
  | rmEdge (source terminus : String)
  | clear
deriving DecidableEq, Repr

/-- Applies one arbitrated edit operation, returning the network and the
`info` message. -/
def applyNetOp (net : Network) : NetOp → Network × String
  | NetOp.addVertex v => net.applyAddVertex v
  | NetOp.addEdge s t w r c => net.applyAddEdge s t w r c
  | NetOp.rmVertex v => net.applyRmVertex v
  | NetOp.rmEdge s t => net.applyRmEdge s t
  | NetOp.clear => (net.clearModel, "")

/-- Applies a sequence of edit operations. -/
def applyNetOps (net : Network) (ops : List NetOp) : Network :=
  ops.foldl (fun n op => (applyNetOp n op).1) net

/-- The capacity invariant of the spec: every admitted network edge has
`0 ≤ restriction ≤ weight`. -/
def Network.capacityInv (net : Network) : Prop :=
  ∀ e ∈ net.edges, 0 ≤ e.2.2.restriction ∧ e.2.2.restriction ≤ e.2.2.weight

/-- The node-link interchange document that `save_graph` writes with
`nx.node_link_data`: the ordered vertex list and the ordered link list with
their attributes, plus the directedness flag the document records. -/
structure NodeLinkDoc where
  directed : Bool
  nodes : List String
  links : List (String × String × Int)
deriving DecidableEq, Repr

/-- Model of `save_graph`: serializes the current model into the node-link
document (the JSON rendering and file path are presentation; the document
content is the node list and link list with attributes). -/
def save_graph (g : Graph) : NodeLinkDoc := ⟨g.directed, g.nodes, g.edges⟩

/-- One result-file edge record, as the identity executor writes it. -/
def edgeLine (e : String × String × Int) : String :=
  joinTok [e.1, e.2.1, intTok e.2.2]

/-- Modelled from the spec: the external executor binary (`graph.out`,
not part of this repository) acting as a no-op identity — it reads the
interchange document and writes the same vertex and edge sets back in the
result-file grammar of the spec (header token, `vertices` section header,
one id per vertex record, `edges`, `source target weight` records,
`end`). -/
def identityExecutor (d : NodeLinkDoc) : List String :=
  (if d.directed then "digraph" else "graph") ::
    "vertices" :: (d.nodes ++ ("edges" :: (d.links.map edgeLine ++ ["end"])))

/-- Tokens reserved by the result-file grammar. -/
def reservedToks : List String := ["edges", "extra", "end"]

/-- A graph model representable in the interchange document: its node
identifiers are single non-reserved tokens, node list without duplicates,
edges between existing nodes with no duplicate (for the undirected variant:
in either orientation) pair. -/
def GraphWF (g : Graph) : Prop :=
  (∀ v ∈ g.nodes, safeTok v ∧ v ∉ reservedToks) ∧
  g.nodes.Nodup ∧
  (∀ e ∈ g.edges, e.1 ∈ g.nodes ∧ e.2.1 ∈ g.nodes) ∧
  g.edges.Pairwise (fun e e' => edgeMatches g.directed e'.1 e'.2.1 e = false)

/-- Example network with one vertex, used to instantiate session
scenarios. -/
def netOneVertex : Network :=
  ⟨[("A", ⟨some "source", none, none, none, some "+ A"⟩)], []⟩

/-- Example network with one other vertex. -/
def netOtherVertex : Network :=
  ⟨[("B", ⟨some "source", none, none, none, some "+ B"⟩)], []⟩

theorem stringMk_data : ∀ s : String, String.mk s.data = s
  | ⟨_⟩ => rfl

theorem pyWordsAux_safe_front (w : List Char) (hw : ∀ c ∈ w, c.isWhitespace = false) :
    ∀ rest acc, pyWordsAux (w ++ rest) acc = pyWordsAux rest (w.reverse ++ acc) := by
  induction w with
  | nil => intro rest acc; simp
  | cons c cs ih =>
    intro rest acc
    have hc : c.isWhitespace = false := hw c (List.mem_cons_self c cs)
    have hcs : ∀ x ∈ cs, x.isWhitespace = false := fun x hx => hw x (List.mem_cons_of_mem c hx)
    simp only [List.cons_append, pyWordsAux, hc, Bool.false_eq_true, if_false, List.append_eq]
    rw [ih hcs rest (c :: acc)]
    simp

theorem pyWordsAux_space (rest : List Char) (acc : List Char) :
    pyWordsAux (' ' :: rest) acc =
      if acc.isEmpty then pyWordsAux rest [] else acc.reverse :: pyWordsAux rest [] := by
  have h : (' ').isWhitespace = true := by decide
  simp [pyWordsAux, h]

theorem pyWordsAux_safe_all (w : List Char) (hne : w ≠ [])
    (hw : ∀ c ∈ w, c.isWhitespace = false) : pyWordsAux w [] = [w] := by
  have h := pyWordsAux_safe_front w hw [] []
  simp only [List.append_nil] at h
  rw [h]
  simp [pyWordsAux, hne]

theorem pySplit_single (t : String) (ht : safeTok t) : pySplit t = [t] := by
  obtain ⟨h1, h2⟩ := ht
  unfold pySplit
  rw [pyWordsAux_safe_all t.data h1 h2]
  simp [stringMk_data]

theorem pySplit_joinTok : ∀ ts : List String, ts ≠ [] → (∀ t ∈ ts, safeTok t) →
    pySplit (joinTok ts) = ts := by
  intro ts
  induction ts with
  | nil => intro h; exact absurd rfl h
  | cons t ts ih =>
    intro _ hsafe
    match ts, ih with
    | [], _ => exact pySplit_single t (hsafe t (List.mem_cons_self t []))
    | t' :: ts', ih =>
      have hts : pySplit (joinTok (t' :: ts')) = t' :: ts' :=
        ih (by simp) (fun x hx => hsafe x (List.mem_cons_of_mem t hx))
      have hst : safeTok t := hsafe t (List.mem_cons_self t _)
      obtain ⟨h1, h2⟩ := hst
      show pySplit (t ++ " " ++ joinTok (t' :: ts')) = t :: t' :: ts'
      unfold pySplit
      rw [String.data_append, String.data_append]
      have hsp : (" " : String).data = [' '] := rfl
      rw [hsp, List.append_assoc]
      rw [pyWordsAux_safe_front t.data h2]
      simp only [List.singleton_append, List.append_nil]
      rw [pyWordsAux_space]
      have hacc : t.data.reverse.isEmpty = false := by
        simp [List.isEmpty_iff, h1]
      rw [hacc]
      simp only [Bool.false_eq_true, if_false, List.reverse_reverse, List.map_cons]
      rw [stringMk_data t]
      exact congrArg (List.cons t) hts

theorem charToDig?_digChar (d : Nat) (hd : d < 10) : charToDig? (digChar d) = some d := by
  interval_cases d <;> decide

theorem digChar_not_ws (d : Nat) (hd : d < 10) : (digChar d).isWhitespace = false := by
  interval_cases d <;> decide

theorem digChar_ne_minus (d : Nat) (hd : d < 10) : digChar d ≠ '-' := by
  interval_cases d <;> decide

theorem charsToNatAux_digits (ds : List Nat) (hds : ∀ d ∈ ds, d < 10) :
    ∀ acc, charsToNatAux (ds.map digChar) acc =
      some (ds.foldl (fun a d => a * 10 + d) acc) := by
  induction ds with
  | nil => intro acc; rfl
  | cons d ds ih =>
    intro acc
    have hd : d < 10 := hds d (List.mem_cons_self d ds)
    have hds' : ∀ x ∈ ds, x < 10 := fun x hx => hds x (List.mem_cons_of_mem d hx)
    simp only [List.map_cons, charsToNatAux, charToDig?_digChar d hd, List.foldl_cons]
    exact ih hds' (acc * 10 + d)

theorem foldl_rev_ofDigits (L : List Nat) :
    ∀ acc, L.reverse.foldl (fun a d => a * 10 + d) acc =
      acc * 10 ^ L.length + Nat.ofDigits 10 L := by
  induction L with
  | nil => intro acc; simp [Nat.ofDigits]
  | cons d ds ih =>
    intro acc
    simp only [List.reverse_cons, List.foldl_append, List.foldl_cons, List.foldl_nil,
      Nat.ofDigits_cons, List.length_cons, ih]
    ring

theorem charsToNat?_natChars (n : Nat) : charsToNat? (natChars n) = some n := by
  by_cases hn : n = 0
  · subst hn; decide
  · have hdig : ∀ d ∈ Nat.digits 10 n, d < 10 :=
      fun d hd => Nat.digits_lt_base (by norm_num) hd
    have hne : Nat.digits 10 n ≠ [] := Nat.digits_ne_nil_iff_ne_zero.mpr hn
    unfold natChars charsToNat?
    rw [if_neg hn]
    have hrev : ∀ d ∈ (Nat.digits 10 n).reverse, d < 10 := by
      intro d hd; exact hdig d (List.mem_reverse.mp hd)
    have hempty : (((Nat.digits 10 n).reverse).map digChar).isEmpty = false := by
      simp [List.isEmpty_iff, hne]
    rw [hempty]
    simp only [Bool.false_eq_true, if_false]
    rw [charsToNatAux_digits _ hrev 0, foldl_rev_ofDigits]
    simp [Nat.ofDigits_digits]

theorem natChars_ne_nil (n : Nat) : natChars n ≠ [] := by
  unfold natChars
  by_cases hn : n = 0
  · simp [hn]
  · have hne : Nat.digits 10 n ≠ [] := Nat.digits_ne_nil_iff_ne_zero.mpr hn
    simp [hn, hne]

theorem natChars_head_not_minus (n : Nat) : (natChars n).head? ≠ some '-' := by
  unfold natChars
  by_cases hn : n = 0
  · simp [hn]
  · have hne : Nat.digits 10 n ≠ [] := Nat.digits_ne_nil_iff_ne_zero.mpr hn
    rw [if_neg hn]
    match hL : (Nat.digits 10 n).reverse with
    | [] => exact absurd (by simpa using hL) hne
    | d :: ds =>
      have hd : d < 10 := by
        have : d ∈ Nat.digits 10 n := by
          have : d ∈ (Nat.digits 10 n).reverse := by rw [hL]; exact List.mem_cons_self d ds
          exact List.mem_reverse.mp this
        exact Nat.digits_lt_base (by norm_num) this
      simp only [List.map_cons, List.head?_cons]
      intro h
      exact digChar_ne_minus d hd (Option.some.inj h)

theorem pyInt?_intTok (n : Int) : pyInt? (intTok n) = some n := by
  cases n with
  | ofNat m =>
    unfold pyInt? intTok pyIntChars?
    have hdata : (String.mk (intChars (Int.ofNat m))).data = natChars m := rfl
    rw [hdata, if_neg (natChars_head_not_minus m), charsToNat?_natChars]
    rfl
  | negSucc m =>
    unfold pyInt? intTok pyIntChars?
    have hdata : (String.mk (intChars (Int.negSucc m))).data = '-' :: natChars (m + 1) := rfl
    rw [hdata]
    simp only [List.head?_cons, if_pos rfl, List.tail_cons, charsToNat?_natChars]
    simp [Int.negSucc_eq]

theorem natChars_not_ws (n : Nat) : ∀ c ∈ natChars n, c.isWhitespace = false := by
  unfold natChars
  by_cases hn : n = 0
  · simp [hn]
  · rw [if_neg hn]
    intro c hc
    obtain ⟨d, hd, hdc⟩ := List.mem_map.mp hc
    have : d < 10 := Nat.digits_lt_base (by norm_num) (List.mem_reverse.mp hd)
    rw [← hdc]
    exact digChar_not_ws d this

theorem safeTok_intTok (n : Int) : safeTok (intTok n) := by
  cases n with
  | ofNat m =>
    refine ⟨natChars_ne_nil m, ?_⟩
    exact natChars_not_ws m
  | negSucc m =>
    constructor
    · simp [intTok, intChars]
    · intro c hc
      have hc' : c ∈ '-' :: natChars (m + 1) := hc
      rcases List.mem_cons.mp hc' with h | h
      · subst h; decide
      · exact natChars_not_ws (m + 1) c h

/-- C1: each of the three parsers, on a result file whose first line's
first token is the sentinel `exception`, stops at once, consumes exactly
one further line (the result does not depend on anything after it), and
returns that line as the error message on the failure path; the concrete
input `"exception\nNo path exists.\n"` gives exactly that message; and a
run whose parse ends on the failure path leaves the current model
untouched. -/
theorem exception_sentinel_passthrough (msg : String) (rest : List String)
    {α : Type} (s : Session α) :
    load_graph ("exception" :: msg :: rest) = ParseOutcome.exc msg ∧
    load_digraph ("exception" :: msg :: rest) = ParseOutcome.exc msg ∧
    load_network ("exception" :: msg :: rest) = ParseOutcome.exc msg ∧
    load_graph ["exception", "No path exists."] = ParseOutcome.exc "No path exists." ∧
    load_network ["exception", "No path exists."] = ParseOutcome.exc "No path exists." ∧
    (s.runStep (ParseOutcome.exc msg)).curModel = s.curModel ∧
    (s.runStep (ParseOutcome.exc msg)).msg = msg := by
  refine ⟨rfl, rfl, rfl, rfl, rfl, ?_, rfl⟩
  simp [Session.runStep, Session.curModel]

theorem heapModify_get_ne {α : Type} (h : List α) (i j : Nat) (f : α → α) (hij : i ≠ j) :
    (heapModify h i f)[j]? = h[j]? := by
  unfold heapModify
  match hg : h[i]? with
  | some a => exact List.getElem?_set_ne hij
  | none => rfl

theorem heapModify_get_eq {α : Type} (h : List α) (i : Nat) (f : α → α) (a : α)
    (ha : h[i]? = some a) : (heapModify h i f)[i]? = some (f a) := by
  have hi : i < h.length := by
    by_contra hlt
    rw [List.getElem?_eq_none (le_of_not_lt hlt)] at ha
    exact Option.noConfusion ha
  unfold heapModify
  rw [ha]
  exact List.getElem?_set_eq_of_lt (f a) hi

theorem editCur_curModel {α : Type} (s : Session α) (f : α → α) :
    (s.editCur f).curModel = s.curModel.map f := by
  unfold Session.editCur Session.curModel
  match ha : s.heap[s.cur]? with
  | some a => rw [heapModify_get_eq s.heap s.cur f a ha]; rfl
  | none => simp [heapModify, ha]

theorem runStep_ok_curModel {α : Type} (s : Session α) (m : α) (i : String) :
    (s.runStep (ParseOutcome.ok m i)).curModel = some m := by
  unfold Session.runStep Session.curModel
  exact List.getElem?_concat_length s.heap m

/-- C7: the generation counter (`file_id`) increases by exactly one on a
run whose result parses to `Ok`, is unchanged by a run ending on the
failure path (or aborting in the parser), decreases by exactly one on
rollback when above 1 and is never taken below 1 from a positive value,
and is untouched by edit and clear operations. -/
theorem generation_counter_behaviour {α : Type} (s : Session α) (m : α)
    (i em : String) (f : α → α) :
    (s.runStep (ParseOutcome.ok m i)).gen = s.gen + 1 ∧
    (s.runStep (ParseOutcome.exc em)).gen = s.gen ∧
    (s.runStep ParseOutcome.malformed).gen = s.gen ∧
    (1 < s.gen → s.rollback.gen = s.gen - 1) ∧
    (s.gen ≤ 1 → s.rollback.gen = s.gen) ∧
    (1 ≤ s.gen → 1 ≤ s.rollback.gen) ∧
    (s.editCur f).gen = s.gen ∧
    (s.clearStep f).gen = s.gen := by
  refine ⟨rfl, rfl, rfl, ?_, ?_, ?_, rfl, rfl⟩
  · intro h; simp [Session.rollback, h]
  · intro h; simp [Session.rollback, Nat.not_lt.mpr h]
  · intro h
    unfold Session.rollback
    by_cases h1 : 1 < s.gen
    · simp only [h1, if_true]; omega
    · simp only [h1, if_false]; exact h

/-- Witness for `generation_counter_behaviour` at a concrete session with
generation 5. -/
theorem generation_counter_behaviour_witness :
    (Session.rollback ⟨[emptyNetwork], 0, 0, 5, ""⟩ : Session Network).gen = 5 - 1 :=
  (generation_counter_behaviour (⟨[emptyNetwork], 0, 0, 5, ""⟩ : Session Network)
    emptyNetwork "" "" id).2.2.2.1 (by decide)

/-- C2: after two consecutive successful runs taking the generation from 1
to 2 and then 3, a single rollback restores exactly the model produced by
the first of the two runs — the snapshot referenced by `original` just
before the generation-3 run — not the model current before the
generation-2 run; and the rollback itself is `current := original` plus the
floored generation decrement. -/
theorem rollback_single_step {α : Type} (s : Session α) (m1 m2 m3 : α)
    (i2 i3 : String) (hgen : s.gen = 1) (hcur : s.curModel = some m1) :
    (s.runStep (ParseOutcome.ok m2 i2)).gen = 2 ∧
    ((s.runStep (ParseOutcome.ok m2 i2)).runStep (ParseOutcome.ok m3 i3)).gen = 3 ∧
    ((s.runStep (ParseOutcome.ok m2 i2)).runStep (ParseOutcome.ok m3 i3)).rollback.cur
      = ((s.runStep (ParseOutcome.ok m2 i2)).runStep (ParseOutcome.ok m3 i3)).orig ∧
    ((s.runStep (ParseOutcome.ok m2 i2)).runStep (ParseOutcome.ok m3 i3)).rollback.gen = 2 ∧
    ((s.runStep (ParseOutcome.ok m2 i2)).runStep (ParseOutcome.ok m3 i3)).rollback.curModel
      = some m2 ∧
    (m1 ≠ m2 →
      ((s.runStep (ParseOutcome.ok m2 i2)).runStep (ParseOutcome.ok m3 i3)).rollback.curModel
        ≠ some m1) := by
  have hmodel :
      ((s.runStep (ParseOutcome.ok m2 i2)).runStep (ParseOutcome.ok m3 i3)).rollback.curModel
        = some m2 := by
    have hred :
        ((s.runStep (ParseOutcome.ok m2 i2)).runStep (ParseOutcome.ok m3 i3)).rollback.curModel
          = (s.heap ++ [m2] ++ [m3])[s.heap.length]? := rfl
    rw [hred]
    have hlt : s.heap.length < (s.heap ++ [m2]).length := by simp
    rw [List.getElem?_append_left hlt]
    exact List.getElem?_concat_length s.heap m2
  refine ⟨by simp [Session.runStep, hgen], by simp [Session.runStep, hgen], rfl,
    by simp [Session.runStep, Session.rollback, hgen], hmodel, ?_⟩
  intro hne
  rw [hmodel]
  intro hcontra
  exact hne (Option.some.inj hcontra).symm

/-- Witness for `rollback_single_step`: from a concrete generation-1
session, two successful runs and a rollback land on the model of the first
run. -/
theorem rollback_single_step_witness :
    (((⟨[emptyNetwork, emptyNetwork], 0, 1, 1, ""⟩ : Session Network).runStep
        (ParseOutcome.ok netOneVertex "")).runStep
        (ParseOutcome.ok netOtherVertex "")).rollback.curModel = some netOneVertex :=
  (rollback_single_step (⟨[emptyNetwork, emptyNetwork], 0, 1, 1, ""⟩ : Session Network)
    emptyNetwork netOneVertex netOtherVertex "" "" rfl rfl).2.2.2.2.1

/-- C10: immediately after a rollback, and immediately after a run whose
parse ends on the failure path (or aborts), `current` and `original` hold
the same address — the assignments `current := original` and
`original := current` copy references, not objects — and from such a state
every in-place edit of the current object is seen identically through
`original`, which therefore no longer holds the pre-run snapshot. -/
theorem current_original_alias {α : Type} (s : Session α) (em : String)
    (f : α → α) (m : α) :
    s.rollback.cur = s.rollback.orig ∧
    (s.runStep (ParseOutcome.exc em)).cur = (s.runStep (ParseOutcome.exc em)).orig ∧
    (s.runStep ParseOutcome.malformed).cur = (s.runStep ParseOutcome.malformed).orig ∧
    (s.cur = s.orig →
      (s.editCur f).origModel = s.curModel.map f ∧
      (s.editCur f).origModel = (s.editCur f).curModel ∧
      (s.curModel = some m → f m ≠ m → (s.editCur f).origModel ≠ some m)) := by
  refine ⟨rfl, rfl, rfl, ?_⟩
  intro halias
  have hedit : (s.editCur f).origModel = s.curModel.map f := by
    unfold Session.origModel Session.editCur
    rw [← halias]
    exact editCur_curModel s f
  refine ⟨hedit, ?_, ?_⟩
  · rw [hedit, editCur_curModel]
  · intro hm hfm
    rw [hedit, hm]
    intro hcontra
    exact hfm (Option.some.inj hcontra)

/-- Witness for `current_original_alias`: after a rollback of a concrete
session, emptying the current model also empties `original`. -/
theorem current_original_alias_witness :
    ((⟨[netOneVertex], 0, 0, 2, ""⟩ : Session Network).rollback.editCur
        Network.clearModel).origModel ≠ some netOneVertex :=
  ((current_original_alias
      ((⟨[netOneVertex], 0, 0, 2, ""⟩ : Session Network).rollback) ""
      Network.clearModel netOneVertex).2.2.2 rfl).2.2 rfl (by decide)

/-- C8 as amended: the clear action empties the current model in place and
never changes the generation counter; the original model is unaffected
exactly when `original` does not alias `current` (as is the case right
after a successful run). -/
theorem clear_action_effect {α : Type} (s : Session α) (clear : α → α)
    (h : s.cur ≠ s.orig) :
    (s.clearStep clear).gen = s.gen ∧
    (s.clearStep clear).origModel = s.origModel ∧
    (s.clearStep clear).curModel = s.curModel.map clear := by
  refine ⟨rfl, ?_, editCur_curModel s clear⟩
  unfold Session.clearStep Session.editCur Session.origModel
  exact heapModify_get_ne s.heap s.cur s.orig clear h

/-- Witness for `clear_action_effect`: on a concrete non-aliased session,
clearing empties the current network, and leaves the original and the
generation alone. -/
theorem clear_action_effect_witness :
    ((⟨[netOneVertex, emptyNetwork], 0, 1, 3, ""⟩ : Session Network).clearStep
        Network.clearModel).gen = 3 ∧
    ((⟨[netOneVertex, emptyNetwork], 0, 1, 3, ""⟩ : Session Network).clearStep
        Network.clearModel).origModel = some emptyNetwork ∧
    ((⟨[netOneVertex, emptyNetwork], 0, 1, 3, ""⟩ : Session Network).clearStep
        Network.clearModel).curModel = some emptyNetwork :=
  clear_action_effect (⟨[netOneVertex, emptyNetwork], 0, 1, 3, ""⟩ : Session Network)
    Network.clearModel (by decide)

/-- Counterexample to C8 as stated: in a session where `current` and
`original` alias the same object (the state rollback leaves behind), the
clear action empties the original model as well, so it is not left
unchanged for every session state. -/
theorem clear_action_cex :
    ((⟨[netOneVertex], 0, 0, 1, ""⟩ : Session Network).clearStep
        Network.clearModel).origModel
      ≠ (⟨[netOneVertex], 0, 0, 1, ""⟩ : Session Network).origModel ∧
    (⟨[netOneVertex], 0, 0, 1, ""⟩ : Session Network).rollback.cur
      = (⟨[netOneVertex], 0, 0, 1, ""⟩ : Session Network).rollback.orig := by
  constructor
  · intro h
    have : some emptyNetwork = some netOneVertex := h
    have hne : emptyNetwork ≠ netOneVertex := by decide
    exact hne (Option.some.inj this)
  · rfl

theorem le_foldr_max (l : List Nat) : ∀ x ∈ l, x ≤ l.foldr max 0 := by
  induction l with
  | nil => intro x hx; cases hx
  | cons a as ih =>
    intro x hx
    rcases List.mem_cons.mp hx with h | h
    · subst h; exact le_max_left _ _
    · exact le_trans (ih x h) (le_max_right _ _)

theorem foldr_max_mem (l : List Nat) (hne : l ≠ []) : l.foldr max 0 ∈ l := by
  induction l with
  | nil => exact absurd rfl hne
  | cons a as ih =>
    by_cases has : as = []
    · subst has; simp
    · have hm := ih has
      simp only [List.foldr_cons]
      rcases max_choice a (as.foldr max 0) with h | h
      · rw [h]; exact List.mem_cons_self _ _
      · rw [h]; exact List.mem_cons_of_mem _ hm

/-- C3: the arbitrator selects the pending action with the maximum
timestamp (absent timestamps counting as 0) and lets it execute only if its
own timestamp is present: with timestamps `{add_vertex: 0, add_edge: 5,
remove_vertex: 0}` (the remaining four slots absent) the add-edge slot
(index 1) is selected; when every timestamp is absent nothing is selected
and a dispatch leaves the model untouched; and any selected slot is present
and carries a maximal timestamp value. -/
theorem arbitration_tie_break :
    selectedAction [some 0, some 5, some 0, none, none, none, none] = some 1 ∧
    selectedAction (List.replicate 7 none) = none ∧
    (∀ (α : Type) (acts : Nat → α → α) (m : α),
      dispatchStep (List.replicate 7 none) acts m = m) ∧
    (∀ ts k, selectedAction ts = some k → ∃ t, ts.get? k = some (some t)) ∧
    (∀ ts k, selectedAction ts = some k → ∀ j, j < ts.length →
      (ts.map btnVal).getD j 0 ≤ (ts.map btnVal).getD k 0) := by
  refine ⟨by decide, by decide, ?_, ?_, ?_⟩
  · intro α acts m
    unfold dispatchStep
    have h : selectedAction (List.replicate 7 (none : Option Nat)) = none := by decide
    rw [h]
  · intro ts k hsel
    unfold selectedAction at hsel
    match hget : ts.get? (argmaxFirst (ts.map btnVal)) with
    | some (some t) =>
      rw [hget] at hsel
      simp only [Option.some.injEq] at hsel
      exact ⟨t, hsel ▸ hget⟩
    | some none => rw [hget] at hsel; exact Option.noConfusion hsel
    | none => rw [hget] at hsel; exact Option.noConfusion hsel
  · intro ts k hsel j hj
    have hk : k = argmaxFirst (ts.map btnVal) := by
      unfold selectedAction at hsel
      match hget : ts.get? (argmaxFirst (ts.map btnVal)) with
      | some (some t) =>
        rw [hget] at hsel
        exact (Option.some.inj hsel).symm
      | some none => rw [hget] at hsel; exact Option.noConfusion hsel
      | none => rw [hget] at hsel; exact Option.noConfusion hsel
    subst hk
    set l := ts.map btnVal with hl
    have hlen : l.length = ts.length := by rw [hl]; exact List.length_map ts btnVal
    have hlne : l ≠ [] := by
      intro hnil
      rw [hnil] at hlen
      simp only [List.length_nil] at hlen
      omega
    have hmem : l.foldr max 0 ∈ l := foldr_max_mem l hlne
    have hidx : l.indexOf (l.foldr max 0) < l.length := List.indexOf_lt_length.mpr hmem
    have hkval : l.getD (argmaxFirst l) 0 = l.foldr max 0 := by
      unfold argmaxFirst
      rw [List.getD_eq_get l 0 hidx]
      exact List.indexOf_get hidx
    rw [hkval]
    have hjl : j < l.length := by omega
    rw [List.getD_eq_get l 0 hjl]
    exact le_foldr_max l (l.get ⟨j, hjl⟩) (List.get_mem l j hjl)

/-- Witness for `arbitration_tie_break`: the selected slot for the
scenario timestamps carries a maximal value compared with slot 0. -/
theorem arbitration_tie_break_witness :
    ([some 0, some 5, some 0, none, none, none, none].map btnVal).getD 0 0 ≤
      ([some 0, some 5, some 0, none, none, none, none].map btnVal).getD 1 0 :=
  arbitration_tie_break.2.2.2.2 [some 0, some 5, some 0, none, none, none, none] 1
    arbitration_tie_break.1 0 (by decide)

theorem Network.addNode_edges (net : Network) (v : String) (a : NVertexAttrs) :
    (net.addNode v a).edges = net.edges := by
  unfold Network.addNode
  split <;> rfl

theorem Network.ensureNode_edges (net : Network) (v : String) :
    (net.ensureNode v).edges = net.edges := by
  unfold Network.ensureNode
  split <;> rfl

theorem Network.updateVertexInfo_edges (net : Network) (v : String) :
    (net.updateVertexInfo v).edges = net.edges := rfl

theorem Network.updateAllInfo_edges (net : Network) :
    net.updateAllInfo.edges = net.edges := by
  unfold Network.updateAllInfo
  generalize net.nodes.map (·.1) = vs
  induction vs generalizing net with
  | nil => rfl
  | cons v vs ih =>
    rw [List.foldl_cons, ih (net.updateVertexInfo v), Network.updateVertexInfo_edges]

theorem Network.mem_addEdge_edges (net : Network) (u v : String) (a : NEdgeAttrs)
    (e : String × String × NEdgeAttrs) (he : e ∈ (net.addEdge u v a).edges) :
    e ∈ net.edges ∨ e = (u, v, a) := by
  unfold Network.addEdge at he
  dsimp only at he
  rw [show ((net.ensureNode u).ensureNode v).edges = net.edges by
    rw [Network.ensureNode_edges, Network.ensureNode_edges]] at he
  by_cases hcase : ((net.ensureNode u).ensureNode v).hasEdge u v
  · rw [if_pos hcase] at he
    simp only [List.mem_map] at he
    obtain ⟨e', he', heq⟩ := he
    by_cases hm : (e'.1 = u && e'.2.1 = v) = true
    · rw [if_pos hm] at heq
      right; exact heq.symm
    · rw [if_neg hm] at heq
      left; exact heq ▸ he'
  · rw [if_neg hcase] at he
    rcases List.mem_append.mp he with h | h
    · left; exact h
    · right; simpa using h

theorem Network.capacityInv_addVertex (net : Network) (v : String) :
    (net.applyAddVertex v).1.edges = net.edges := by
  unfold Network.applyAddVertex
  dsimp only
  split
  · rfl
  split
  · rfl
  split
  · exact net.addNode_edges _ _
  split
  · split <;> first | exact net.addNode_edges _ _ | rfl
  · split
    · split
      · exact net.addNode_edges _ _
      · rfl
    · rfl

theorem Network.capacityInv_applyOp (op : NetOp) (net : Network)
    (hinv : net.capacityInv) : (applyNetOp net op).1.capacityInv := by
  cases op with
  | addVertex v =>
    intro e he
    rw [show (applyNetOp net (NetOp.addVertex v)).1 = (net.applyAddVertex v).1 from rfl,
      Network.capacityInv_addVertex] at he
    exact hinv e he
  | addEdge s t w r c =>
    intro e he
    rw [show (applyNetOp net (NetOp.addEdge s t w r c)).1 = (net.applyAddEdge s t w r c).1
      from rfl] at he
    unfold Network.applyAddEdge at he
    by_cases h0 : s = "" ∨ t = ""
    · rw [if_pos h0] at he; exact hinv e he
    rw [if_neg h0] at he
    by_cases hg : net.hasNode s = true ∧ net.hasNode t = true ∧ r ≤ w ∧ 0 ≤ r ∧ 0 ≤ w
    · rw [if_pos hg] at he
      dsimp only at he
      rw [Network.updateVertexInfo_edges, Network.updateVertexInfo_edges] at he
      rcases Network.mem_addEdge_edges net s t _ e he with h | h
      · exact hinv e h
      · rw [h]
        exact ⟨hg.2.2.2.1, hg.2.2.1⟩
    · rw [if_neg hg] at he
      split at he <;> first
        | exact hinv e he
        | (split at he <;> first
            | exact hinv e he
            | (split at he <;> first
                | exact hinv e he
                | (split at he <;> first
                    | exact hinv e he
                    | (split at he <;> exact hinv e he))))
  | rmVertex v =>
    intro e he
    rw [show (applyNetOp net (NetOp.rmVertex v)).1 = (net.applyRmVertex v).1 from rfl] at he
    unfold Network.applyRmVertex at he
    split at he
    · exact hinv e he
    split at he
    · rw [Network.updateAllInfo_edges] at he
      unfold Network.removeNode at he
      exact hinv e (List.mem_of_mem_filter he)
    · exact hinv e he
  | rmEdge s t =>
    intro e he
    rw [show (applyNetOp net (NetOp.rmEdge s t)).1 = (net.applyRmEdge s t).1 from rfl] at he
    unfold Network.applyRmEdge at he
    split at he
    · exact hinv e he
    split at he
    · rw [Network.updateVertexInfo_edges, Network.updateVertexInfo_edges] at he
      unfold Network.removeEdge at he
      exact hinv e (List.mem_of_mem_filter he)
    split at he
    · exact hinv e he
    split at he
    · exact hinv e he
    split at he
    · exact hinv e he
    · exact hinv e he
  | clear =>
    intro e he
    exact absurd he (List.not_mem_nil e)

/-- C4: every edge ever admitted into the network model by a sequence of
edit operations satisfies `0 ≤ restriction ≤ weight`, and an add-edge
attempt with `restriction < 0`, `weight < 0` or `restriction > weight`
mutates nothing and produces a user-visible message. -/
theorem network_capacity_invariant :
    (∀ ops : List NetOp, (applyNetOps emptyNetwork ops).capacityInv) ∧
    (∀ (net : Network) (s t : String) (w r c : Int), s ≠ "" → t ≠ "" →
      (r < 0 ∨ w < 0 ∨ w < r) →
      (net.applyAddEdge s t w r c).1 = net ∧ (net.applyAddEdge s t w r c).2 ≠ "") := by
  constructor
  · intro ops
    have hgen : ∀ (ops : List NetOp) (net : Network), net.capacityInv →
        (applyNetOps net ops).capacityInv := by
      intro ops
      induction ops with
      | nil => intro net h; exact h
      | cons op ops ih =>
        intro net h
        exact ih (applyNetOp net op).1 (Network.capacityInv_applyOp op net h)
    exact hgen ops emptyNetwork (fun e he => absurd he (List.not_mem_nil e))
  · intro net s t w r c hs ht hviol
    unfold Network.applyAddEdge
    rw [if_neg (by push_neg; exact ⟨hs, ht⟩)]
    have hguard : ¬ (net.hasNode s = true ∧ net.hasNode t = true ∧ r ≤ w ∧ 0 ≤ r ∧ 0 ≤ w) := by
      intro hg
      rcases hviol with h | h | h
      · exact absurd hg.2.2.2.1 (not_le.mpr h)
      · exact absurd hg.2.2.2.2 (not_le.mpr h)
      · exact absurd hg.2.2.1 (not_le.mpr h)
    rw [if_neg hguard]
    have hvertexMsg : ∀ x : String, ("Vertex " ++ x ++ " is not on the network.") ≠ "" := by
      intro x h
      have hdata : ("Vertex " ++ x ++ " is not on the network.").data = [] := by
        rw [h]
      rw [String.data_append, String.data_append] at hdata
      have := List.append_eq_nil.mp hdata
      have := List.append_eq_nil.mp this.1
      exact absurd this.1 (by decide)
    have hverticesMsg : ∀ x y : String,
        ("Vertices " ++ x ++ " and " ++ y ++ " are not on the network.") ≠ "" := by
      intro x y h
      have hdata : ("Vertices " ++ x ++ " and " ++ y ++ " are not on the network.").data = [] := by
        rw [h]
      rw [String.data_append, String.data_append, String.data_append,
        String.data_append] at hdata
      have := List.append_eq_nil.mp hdata
      have := List.append_eq_nil.mp this.1
      have := List.append_eq_nil.mp this.1
      have := List.append_eq_nil.mp this.1
      exact absurd this.1 (by decide)
    split
    · exact ⟨rfl, hvertexMsg s⟩
    split
    · exact ⟨rfl, hvertexMsg t⟩
    split
    · exact ⟨rfl, hverticesMsg s t⟩
    split
    · refine ⟨rfl, ?_⟩
      show ("The capacity of the edge can't be less than the restriction." : String) ≠ ""
      decide
    split
    · refine ⟨rfl, ?_⟩
      show ("The minimum restriction can't be negative." : String) ≠ ""
      decide
    · refine ⟨rfl, ?_⟩
      show ("The capacity of the edge can't be negative." : String) ≠ ""
      decide

/-- Witness for `network_capacity_invariant`: a violating attempt
(`restriction 2 > weight 1`) on the empty network is rejected with a
message and no mutation. -/
theorem network_capacity_invariant_witness :
    ((emptyNetwork.applyAddEdge "a" "b" 1 2 0).1 = emptyNetwork ∧
      (emptyNetwork.applyAddEdge "a" "b" 1 2 0).2 ≠ "") :=
  network_capacity_invariant.2 emptyNetwork "a" "b" 1 2 0 (by decide) (by decide)
    (Or.inr (Or.inr (by norm_num)))

/-- C9: the network vertex-record variants: a 5-field record
`name type _ _ production` yields a vertex with fixed `flow`, a 6-field
record `name type _ min max _` yields a vertex with `min_flow`/`max_flow`
bounds, and a 4-field record `name type _ _` yields a plain vertex with
neither; in particular `"S source _ _ 10"` gives fixed flow 10 and
`"X pass _ 2 5 _"` gives bounds 2/5. -/
theorem network_vertex_variants :
    (∀ (name ty a b prod : String) (n : Int) (rest : List String) (net : Network),
      safeTok name → safeTok ty → safeTok a → safeTok b → safeTok prod →
      name ≠ "edges" → pyInt? prod = some n →
      parseVertsN (joinTok [name, ty, a, b, prod] :: rest) net =
        parseVertsN rest (net.addNode name ⟨some ty, some n, none, none, none⟩)) ∧
    (∀ (name ty a mn mx b : String) (m1 m2 : Int) (rest : List String) (net : Network),
      safeTok name → safeTok ty → safeTok a → safeTok mn → safeTok mx → safeTok b →
      name ≠ "edges" → pyInt? mn = some m1 → pyInt? mx = some m2 →
      parseVertsN (joinTok [name, ty, a, mn, mx, b] :: rest) net =
        parseVertsN rest (net.addNode name ⟨some ty, none, some m1, some m2, none⟩)) ∧
    (∀ (name ty a b : String) (rest : List String) (net : Network),
      safeTok name → safeTok ty → safeTok a → safeTok b → name ≠ "edges" →
      parseVertsN (joinTok [name, ty, a, b] :: rest) net =
        parseVertsN rest (net.addNode name ⟨some ty, none, none, none, none⟩)) ∧
    load_network ["network", "vertices", "S source _ _ 10", "X pass _ 2 5 _",
        "A pass _ _", "edges", "end"] =
      ParseOutcome.ok
        ⟨[("S", ⟨some "source", some 10, none, none, none⟩),
          ("X", ⟨some "pass", none, some 2, some 5, none⟩),
          ("A", ⟨some "pass", none, none, none, none⟩)], []⟩ "" := by
  refine ⟨?_, ?_, ?_, by decide⟩
  · intro name ty a b prod n rest net h1 h2 h3 h4 h5 hname hprod
    have hsplit : pySplit (joinTok [name, ty, a, b, prod]) = [name, ty, a, b, prod] :=
      pySplit_joinTok [name, ty, a, b, prod] (by simp)
        (by intro x hx; fin_cases hx <;> assumption)
    simp only [parseVertsN, hsplit, hname, if_false, hprod]
  · intro name ty a mn mx b m1 m2 rest net h1 h2 h3 h4 h5 h6 hname hmn hmx
    have hsplit : pySplit (joinTok [name, ty, a, mn, mx, b]) = [name, ty, a, mn, mx, b] :=
      pySplit_joinTok [name, ty, a, mn, mx, b] (by simp)
        (by intro x hx; fin_cases hx <;> assumption)
    simp only [parseVertsN, hsplit, hname, if_false, hmn, hmx]
  · intro name ty a b rest net h1 h2 h3 h4 hname
    have hsplit : pySplit (joinTok [name, ty, a, b]) = [name, ty, a, b] :=
      pySplit_joinTok [name, ty, a, b] (by simp)
        (by intro x hx; fin_cases hx <;> assumption)
    simp only [parseVertsN, hsplit, hname, if_false]

/-- Witness for `network_vertex_variants`: the 5-field record of the spec
scenario parsed against the empty network. -/
theorem network_vertex_variants_witness :
    parseVertsN [joinTok ["S", "source", "_", "_", "10"], "edges"] emptyNetwork =
      parseVertsN ["edges"]
        (emptyNetwork.addNode "S" ⟨some "source", some 10, none, none, none⟩) :=
  network_vertex_variants.1 "S" "source" "_" "_" "10" 10 ["edges"] emptyNetwork
    (by decide) (by decide) (by decide) (by decide) (by decide) (by decide) (by decide)

/-- Counterexample to C5 as stated: on a result file whose edge record has
the non-integer weight token `x`, the parse aborts with an uncaught
exception (the `malformed` outcome, `int('x')` raising `ValueError` with no
handler anywhere in the code), and the run step surfaces no user-visible
error message at all — the `info` slot stays empty — rather than turning
the failure into an error; the current model is indeed left unchanged. -/
theorem malformed_record_cex :
    load_graph ["graph", "vertices", "A", "edges", "A B x", "end"]
      = ParseOutcome.malformed ∧
    ((Session.fresh (newGraph false)).runStep
        (load_graph ["graph", "vertices", "A", "edges", "A B x", "end"])).msg = "" ∧
    ((Session.fresh (newGraph false)).runStep
        (load_graph ["graph", "vertices", "A", "edges", "A B x", "end"])).curModel
      = (Session.fresh (newGraph false)).curModel := by
  refine ⟨by decide, by decide, by decide⟩

/-- C5 as amended: a non-integer numeric token makes the parse attempt
abort (an uncaught `ValueError`, a failure mode distinct from the
executor-reported `exception` sentinel); the session's current model and
generation are left unchanged, but no user-visible error message is set
(the exception escapes the callback unhandled) and `original` has already
been re-pointed at the current model. -/
theorem malformed_record_behaviour :
    (∀ (s t w : String) (rest : List String) (g : Graph),
      safeTok s → safeTok t → safeTok w → s ≠ "extra" → s ≠ "end" →
      pyInt? w = none → parseEdgesW (joinTok [s, t, w] :: rest) g = none) ∧
    (∀ (name ty a b prod : String) (rest : List String) (net : Network),
      safeTok name → safeTok ty → safeTok a → safeTok b → safeTok prod →
      name ≠ "edges" → pyInt? prod = none →
      parseVertsN (joinTok [name, ty, a, b, prod] :: rest) net = none) ∧
    (∀ (α : Type) (m : String),
      (ParseOutcome.malformed : ParseOutcome α) ≠ ParseOutcome.exc m) ∧
    (∀ (α : Type) (s : Session α),
      (s.runStep ParseOutcome.malformed).curModel = s.curModel ∧
      (s.runStep ParseOutcome.malformed).gen = s.gen ∧
      (s.runStep ParseOutcome.malformed).msg = "" ∧
      (s.runStep ParseOutcome.malformed).orig = s.cur) := by
  refine ⟨?_, ?_, ?_, ?_⟩
  · intro s t w rest g h1 h2 h3 hx he hw
    have hsplit : pySplit (joinTok [s, t, w]) = [s, t, w] :=
      pySplit_joinTok [s, t, w] (by simp)
        (by intro x hx'; fin_cases hx' <;> assumption)
    simp only [parseEdgesW, hsplit, hx, he, if_false, hw]
  · intro name ty a b prod rest net h1 h2 h3 h4 h5 hname hprod
    have hsplit : pySplit (joinTok [name, ty, a, b, prod]) = [name, ty, a, b, prod] :=
      pySplit_joinTok [name, ty, a, b, prod] (by simp)
        (by intro x hx'; fin_cases hx' <;> assumption)
    simp only [parseVertsN, hsplit, hname, if_false, hprod]
  · intro α m h
    exact ParseOutcome.noConfusion h
  · intro α s
    exact ⟨rfl, rfl, rfl, rfl⟩

/-- Witness for `malformed_record_behaviour` at the concrete bad record
`A B x`. -/
theorem malformed_record_behaviour_witness :
    parseEdgesW [joinTok ["A", "B", "x"]] (newGraph false) = none :=
  malformed_record_behaviour.1 "A" "B" "x" [] (newGraph false)
    (by decide) (by decide) (by decide) (by decide) (by decide) (by decide)

theorem Graph.addNode_absent (g : Graph) (v : String) (h : g.hasNode v = false) :
    g.addNode v = { g with nodes := g.nodes ++ [v] } := by
  unfold Graph.addNode
  rw [h]
  rfl

theorem Graph.addNode_present (g : Graph) (v : String) (h : g.hasNode v = true) :
    g.addNode v = g := by
  unfold Graph.addNode
  rw [h]
  rfl

theorem foldl_addNode_nodes (vs : List String) :
    ∀ g : Graph, vs.Nodup → (∀ v ∈ vs, v ∉ g.nodes) →
      vs.foldl Graph.addNode g = { g with nodes := g.nodes ++ vs } := by
  induction vs with
  | nil => intro g _ _; simp
  | cons v vs ih =>
    intro g hnd habs
    have hv : g.hasNode v = false := by
      unfold Graph.hasNode
      rw [Bool.eq_false_iff]
      intro hc
      exact habs v (List.mem_cons_self v vs) (List.mem_of_elem_eq_true hc)
    rw [List.foldl_cons, Graph.addNode_absent g v hv,
      ih _ (List.Nodup.of_cons hnd) ?_]
    · simp
    · intro x hx
      rw [List.mem_append]
      rintro (h | h)
      · exact habs x (List.mem_cons_of_mem v hx) h
      · rw [List.mem_singleton] at h
        subst h
        exact (List.nodup_cons.mp hnd).1 hx

theorem parseVertsG_encode (vs : List String) :
    ∀ (g : Graph) (rest : List String), (∀ v ∈ vs, safeTok v ∧ v ≠ "edges") →
      parseVertsG (vs ++ "edges" :: rest) g = some (vs.foldl Graph.addNode g, rest) := by
  induction vs with
  | nil =>
    intro g rest _
    have h : pySplit "edges" = ["edges"] := by decide
    simp only [List.nil_append, parseVertsG, h, if_pos rfl, if_true, List.foldl_nil]
  | cons v vs ih =>
    intro g rest hsafe
    have hv := hsafe v (List.mem_cons_self v vs)
    have hsplit : pySplit v = [v] := pySplit_single v hv.1
    simp only [List.cons_append, parseVertsG, hsplit, hv.2, if_false, List.foldl_cons]
    exact ih (g.addNode v) rest fun x hx => hsafe x (List.mem_cons_of_mem v hx)

theorem parseEdgesW_encode (es : List (String × String × Int)) :
    ∀ g : Graph,
      (∀ e ∈ es, safeTok e.1 ∧ safeTok e.2.1 ∧ e.1 ≠ "extra" ∧ e.1 ≠ "end") →
      parseEdgesW (es.map edgeLine ++ ["end"]) g =
        some (es.foldl (fun g e => g.addEdge e.1 e.2.1 e.2.2) g, "") := by
  induction es with
  | nil =>
    intro g _
    have h : pySplit "end" = ["end"] := by decide
    have hne : ("end" : String) ≠ "extra" := by decide
    simp only [List.map_nil, List.nil_append, parseEdgesW, h, hne, if_false, if_pos rfl,
      if_true, List.foldl_nil]
  | cons e es ih =>
    intro g hsafe
    have he := hsafe e (List.mem_cons_self e es)
    have hsplit : pySplit (edgeLine e) = [e.1, e.2.1, intTok e.2.2] :=
      pySplit_joinTok [e.1, e.2.1, intTok e.2.2] (by simp)
        (by
          intro x hx
          fin_cases hx
          · exact he.1
          · exact he.2.1
          · exact safeTok_intTok e.2.2)
    simp only [List.map_cons, List.cons_append, parseEdgesW, hsplit, he.2.2.1, he.2.2.2,
      if_false, pyInt?_intTok, List.foldl_cons]
    exact ih (g.addEdge e.1 e.2.1 e.2.2) fun x hx => hsafe x (List.mem_cons_of_mem e hx)

theorem foldl_addEdge_edges (es : List (String × String × Int)) :
    ∀ g : Graph,
      (∀ e ∈ es, g.hasNode e.1 = true ∧ g.hasNode e.2.1 = true) →
      (∀ e ∈ es, g.hasEdge e.1 e.2.1 = false) →
      es.Pairwise (fun e e' => edgeMatches g.directed e'.1 e'.2.1 e = false) →
      es.foldl (fun g e => g.addEdge e.1 e.2.1 e.2.2) g = { g with edges := g.edges ++ es } := by
  induction es with
  | nil => intro g _ _ _; simp
  | cons e es ih =>
    intro g hnodes hfresh hpw
    have he := hnodes e (List.mem_cons_self e es)
    have hstep : g.addEdge e.1 e.2.1 e.2.2 = { g with edges := g.edges ++ [e] } := by
      unfold Graph.addEdge
      rw [Graph.addNode_present g e.1 he.1, Graph.addNode_present g e.2.1 he.2]
      dsimp only
      rw [hfresh e (List.mem_cons_self e es)]
      simp only [Bool.false_eq_true, if_false]
    rw [List.foldl_cons, hstep, ih _ ?_ ?_ ?_]
    · simp
    · intro x hx
      exact hnodes x (List.mem_cons_of_mem e hx)
    · intro x hx
      show ((g.edges ++ [e]).any (edgeMatches g.directed x.1 x.2.1)) = false
      rw [List.any_append]
      have h1 : g.edges.any (edgeMatches g.directed x.1 x.2.1) = false :=
        hfresh x (List.mem_cons_of_mem e hx)
      have h2 : edgeMatches g.directed x.1 x.2.1 e = false :=
        (List.pairwise_cons.mp hpw).1 x hx
      simp [h1, h2]
    · exact (List.pairwise_cons.mp hpw).2

/-- C6: round trip — for any graph model representable in the interchange
document, serializing it and parsing the identity executor's rendition of
the serialized document reconstructs the model exactly (same node list,
same edge list with weights, empty trailing info). -/
theorem graph_round_trip (M : Graph) (hWF : GraphWF M) :
    load_graph (identityExecutor (save_graph M)) = ParseOutcome.ok M "" := by
  obtain ⟨htok, hnodup, hends, hpw⟩ := hWF
  have hverts : parseVertsG (M.nodes ++ ("edges" :: (M.edges.map edgeLine ++ ["end"])))
      (newGraph M.directed)
      = some (⟨M.directed, M.nodes, []⟩, M.edges.map edgeLine ++ ["end"]) := by
    rw [parseVertsG_encode M.nodes (newGraph M.directed) _ ?_]
    · rw [foldl_addNode_nodes M.nodes (newGraph M.directed) hnodup ?_]
      · rfl
      · intro v _ hv
        exact absurd hv (List.not_mem_nil v)
    · intro v hv
      refine ⟨(htok v hv).1, ?_⟩
      intro hc
      exact (htok v hv).2 (hc ▸ (by decide : ("edges" : String) ∈ reservedToks))
  have hedges : parseEdgesW (M.edges.map edgeLine ++ ["end"])
      (⟨M.directed, M.nodes, []⟩ : Graph) = some (M, "") := by
    rw [parseEdgesW_encode M.edges _ ?_]
    · rw [foldl_addEdge_edges M.edges (⟨M.directed, M.nodes, []⟩ : Graph) ?_ ?_ ?_]
      · cases M
        simp
      · intro e he
        have h := hends e he
        exact ⟨List.elem_eq_true_of_mem h.1, List.elem_eq_true_of_mem h.2⟩
      · intro e _
        rfl
      · exact hpw
    · intro e he
      have h1 := hends e he
      have hs := htok e.1 h1.1
      have ht := htok e.2.1 h1.2
      refine ⟨hs.1, ht.1, ?_, ?_⟩
      · intro hc
        exact hs.2 (hc ▸ (by decide : ("extra" : String) ∈ reservedToks))
      · intro hc
        exact hs.2 (hc ▸ (by decide : ("end" : String) ∈ reservedToks))
  cases hdir : M.directed with
  | false =>
    have hfile : identityExecutor (save_graph M) =
        "graph" :: "vertices" :: (M.nodes ++ ("edges" :: (M.edges.map edgeLine ++ ["end"]))) := by
      unfold identityExecutor save_graph
      rw [hdir]
      rfl
    rw [hfile]
    have hsplit : pySplit "graph" = ["graph"] := by decide
    have hcond : (("graph" : String) = "graph" ∨ ("graph" : String) = "digraph") := Or.inl rfl
    simp only [load_graph, hsplit, if_pos hcond, List.tail_cons]
    have hg0 : newGraph (("graph" : String) == "digraph") = newGraph M.directed := by
      rw [hdir]
      rfl
    rw [hg0, hverts]
    dsimp only
    rw [hedges]
    simp
  | true =>
    have hfile : identityExecutor (save_graph M) =
        "digraph" :: "vertices" :: (M.nodes ++ ("edges" :: (M.edges.map edgeLine ++ ["end"]))) := by
      unfold identityExecutor save_graph
      rw [hdir]
      rfl
    rw [hfile]
    have hsplit : pySplit "digraph" = ["digraph"] := by decide
    have hcond : (("digraph" : String) = "graph" ∨ ("digraph" : String) = "digraph") :=
      Or.inr rfl
    simp only [load_graph, hsplit, if_pos hcond, List.tail_cons]
    have hg0 : newGraph (("digraph" : String) == "digraph") = newGraph M.directed := by
      rw [hdir]
      rfl
    rw [hg0, hverts]
    dsimp only
    rw [hedges]
    simp

/-- Witness for `graph_round_trip`: a concrete two-vertex one-edge
undirected model survives the round trip. -/
theorem graph_round_trip_witness :
    load_graph (identityExecutor (save_graph ⟨false, ["A", "B"], [("A", "B", 3)]⟩)) =
      ParseOutcome.ok ⟨false, ["A", "B"], [("A", "B", 3)]⟩ "" :=
  graph_round_trip ⟨false, ["A", "B"], [("A", "B", 3)]⟩
    (by
      refine ⟨?_, by decide, ?_, ?_⟩
      · intro v hv
        fin_cases hv <;> exact ⟨by decide, by decide⟩
      · intro e he
        fin_cases he
        exact ⟨by decide, by decide⟩
      · exact List.pairwise_singleton _ _)
